import Mathlib

/-!
Verification of the include-reference resolution and diagnostics engine of the
grlx language server (src/main.rs).

The development is a shallow embedding of the Rust source:

* the nom parser combinators used by the source (`count (char ' ') 2`,
  `tag "-"`, `multispace1`, `alphanumeric1`, `not_line_ending`, `opt`,
  `preceded`, `terminated`) are modelled by their documented semantics on
  `List Char`;
* `str::lines`, `Path::join`, `Path::file_name`, `Path::file_stem`,
  `Path::parent` are modelled by their documented semantics (paths are kept as
  a component list plus an absoluteness flag, which identifies paths up to the
  component normalisation the Rust accessors themselves perform);
* the filesystem (`Path::exists`, `Path::is_dir`, `fs::canonicalize`) is an
  abstract oracle, and the LSP transport is modelled by structured inbound and
  outbound messages, with serde deserialisation failure represented by a
  `none` parameter payload;
* an `unwrap`/index-out-of-bounds panic is an explicit `panicked` outcome and
  a `?`-propagated error is an explicit `fatal` outcome of one step of the
  event loop.
-/

/-! ### Character classes used by the nom combinators -/

/-- The whitespace set of nom's `multispace1`: space, tab, carriage return,
line feed. -/
def isMultispace (c : Char) : Bool :=
  c == ' ' || c == '\t' || c == '\r' || c == '\n'

/-- The character set of nom's `alphanumeric1`: ASCII letters and digits. -/
def isAsciiAlphanum (c : Char) : Bool :=
  decide (97 ≤ c.toNat ∧ c.toNat ≤ 122) ||
  decide (65 ≤ c.toNat ∧ c.toNat ≤ 90) ||
  decide (48 ≤ c.toNat ∧ c.toNat ≤ 57)

/-- Rust `str::starts_with`: the first argument is the pattern, the second the
scanned text. -/
def startsWithChars : List Char → List Char → Bool
  | [], _ => true
  | _ :: _, [] => false
  | p :: ps, c :: cs => p == c && startsWithChars ps cs

/-! ### nom's `not_line_ending`, complete-input semantics

`not_line_ending` consumes up to the first `'\n'` or `"\r\n"`; a `'\r'` that is
not followed by `'\n'` is an error.  The result is `(consumed, rest)`. -/

def notLineEnding : List Char → Option (List Char × List Char)
  | [] => some ([], [])
  | c :: cs =>
    if c = '\n' then some ([], c :: cs)
    else if c = '\r' then
      if cs.head? = some '\n' then some ([], c :: cs) else none
    else
      match notLineEnding cs with
      | none => none
      | some (t, r) => some (c :: t, r)

/-! ### Rust `str::lines` -/

/-- Split a character list at every occurrence of `sep`, keeping empty
segments. -/
def splitOnChar (sep : Char) : List Char → List (List Char)
  | [] => [[]]
  | c :: cs =>
    match splitOnChar sep cs with
    | [] => [[]]
    | seg :: rest => if c = sep then [] :: seg :: rest else (c :: seg) :: rest

/-- Strip a single trailing carriage return, as `str::lines` does on a line
that was terminated by `'\n'`. -/
def stripCr (l : List Char) : List Char :=
  if l.getLast? = some '\r' then l.dropLast else l

/-- Rust `str::lines`: split at `'\n'`; every segment that was terminated by
a `'\n'` has one trailing `'\r'` stripped; the final segment, which had no
`'\n'` terminator, is kept verbatim — a lone trailing `'\r'` stays in it —
and is dropped only when it is empty (optional final line ending). -/
def rustLines (s : List Char) : List (List Char) :=
  let segs := splitOnChar '\n' s
  segs.dropLast.map stripCr ++
    match segs.getLast? with
    | none => []
    | some last => if last.isEmpty then [] else [last]

/-! ### The two nom parsers of the source -/

/-- `parse_include_line` (src/main.rs:54-66): two literal spaces, a literal
dash, at least one `multispace1` character, then `not_line_ending`; the result
is the reference text produced by `not_line_ending`. -/
def parse_include_line (input : List Char) : Option (List Char) :=
  match input with
  | ' ' :: ' ' :: '-' :: rest =>
    let ws := rest.takeWhile isMultispace
    if ws.isEmpty then none
    else (notLineEnding (rest.drop ws.length)).map Prod.fst
  | _ => none

/-- `parse_current` (src/main.rs:69-75): `opt (preceded (char '.')
(terminated alphanumeric1 not_line_ending))`.  The Rust function always
returns `Ok`; the inner `Option` distinguishing the dot-shorthand match from
the fallback is the `Option` here. -/
def parse_current (input : List Char) : Option (List Char) :=
  match input with
  | '.' :: rest =>
    let run := rest.takeWhile isAsciiAlphanum
    if run.isEmpty then none
    else
      match notLineEnding (rest.drop run.length) with
      | some _ => some run
      | none => none
  | _ => none

/-! ### Filesystem paths

A path is a component list plus an absoluteness flag, the view through which
the source consumes every path (`join`, `file_name`, `file_stem`, `parent`).
Empty segments produced by a join argument are dropped, as Rust's component
iterator does. -/

structure FsPath where
  abs : Bool
  comps : List String
deriving DecidableEq, Repr

/-- Rust `Path::join`: an absolute argument replaces the path, otherwise the
argument's segments are appended. -/
def FsPath.join (p : FsPath) (s : String) : FsPath :=
  let segs := ((splitOnChar '/' s.data).map (fun cs => String.mk cs)).filter
    (fun t => t ≠ "")
  if s.data.head? = some '/' then { abs := true, comps := segs }
  else { abs := p.abs, comps := p.comps ++ segs }

/-- Rust `Path::file_name`: the last component, unless it is `..` (or the path
is empty); `.` components are not components. -/
def FsPath.fileName (p : FsPath) : Option String :=
  match (p.comps.filter (fun c => c ≠ ".")).getLast? with
  | none => none
  | some c => if c = ".." then none else some c

/-- Index of the last `'.'` of a list, if any. -/
def lastDotIdx (cs : List Char) : Option Nat :=
  match cs.reverse.findIdx? (fun c => c = '.') with
  | none => none
  | some j => some (cs.length - 1 - j)

/-- The stem of a file name: everything before the last `'.'`, except that a
name whose only `'.'` is leading is its own stem. -/
def stemOfName (n : String) : String :=
  match lastDotIdx n.data with
  | none => n
  | some 0 => n
  | some i => String.mk (n.data.take i)

/-- Rust `Path::file_stem`. -/
def FsPath.fileStem (p : FsPath) : Option String :=
  p.fileName.map stemOfName

/-- Rust `Path::parent`: drop the last component; the root and the empty path
have no parent. -/
def FsPath.parent (p : FsPath) : Option FsPath :=
  match p.comps with
  | [] => none
  | _ :: _ => some { abs := p.abs, comps := p.comps.dropLast }

/-! ### The reference scanner (`parse_includes_map`, src/main.rs:25-46) -/

/-- Pair a list with 0-based positions starting at `k` (Rust
`Iterator::enumerate` starts at 0). -/
def enumF {α : Type} : Nat → List α → List (Nat × α)
  | _, [] => []
  | k, a :: l => (k, a) :: enumF (k + 1) l

/-- Index of the first element satisfying `g` (length if none), mirroring the
`skip_while`/`take_while` cut points. -/
def findIdxF {α : Type} (g : α → Bool) : List α → Nat
  | [] => 0
  | a :: l => if g a then 0 else findIdxF g l + 1

/-- The candidate path recorded for one line, if the line parses: the
dot-shorthand module name when `parse_current` matches, otherwise the whole
reference text, suffixed `.grlx` and joined onto the base directory. -/
def entryPath (base : FsPath) (line : List Char) : Option FsPath :=
  match parse_include_line line with
  | none => none
  | some ref =>
    match parse_current ref with
    | some run => some (base.join (String.mk run ++ ".grlx"))
    | none => some (base.join (String.mk ref ++ ".grlx"))

/-- One step of the `filter_map` body of `parse_includes_map`: keep the
0-based line number, attach the candidate path. -/
def include_entry (base : FsPath) (p : Nat × List Char) : Option (Nat × FsPath) :=
  (entryPath base p.2).map (fun fp => (p.1, fp))

/-- A document mapping: line number to candidate path.  The Rust `HashMap` is
modelled by this association list; the scanner produces pairwise distinct
keys, so lookup agrees with the `HashMap`. -/
abbrev Mapping := List (Nat × FsPath)

/-- `line.starts_with("include:")`. -/
def isIncludeLine (l : List Char) : Bool := startsWithChars "include:".data l

/-- `line.starts_with("steps:")`. -/
def isStepsLine (l : List Char) : Bool := startsWithChars "steps:".data l

/-- `parse_includes_map` (src/main.rs:25-46): enumerate the lines, skip while
the line does not start with `include:`, take while the line does not start
with `steps:`, and `filter_map` the include-line parser over the window. -/
def parse_includes_map (input : List Char) (base : FsPath) : Mapping :=
  (((enumF 0 (rustLines input)).dropWhile
      (fun p => !isIncludeLine p.2)).takeWhile
      (fun p => !isStepsLine p.2)).filterMap
    (include_entry base)

/-- `HashMap::get` on a mapping. -/
def lookupLine : Mapping → Nat → Option FsPath
  | [], _ => none
  | e :: rest, n => if e.1 = n then some e.2 else lookupLine rest n

/-! ### Document identifiers and the document index

`lsp_types::Url` keys the index through `Url::to_string`, which is injective
on parsed URLs, so the index is keyed by the URL value itself.
`Url::to_file_path` succeeds exactly for `file`-scheme URLs. -/

structure Url where
  scheme : String
  path : FsPath
deriving DecidableEq, Repr

def Url.toFilePath (u : Url) : Option FsPath :=
  if u.scheme = "file" then some u.path else none

/-- The process-wide `files` table (`HashMap<String, HashMap<usize, PathBuf>>`),
as an association list with `insert` replacing the binding. -/
abbrev Index := List (Url × Mapping)

def lookupIdx : Index → Url → Option Mapping
  | [], _ => none
  | e :: rest, u => if e.1 = u then some e.2 else lookupIdx rest u

/-- `HashMap::insert`: replace any existing binding for the key. -/
def updateIndex (files : Index) (k : Url) (v : Mapping) : Index :=
  (k, v) :: files.filter (fun e => e.1 ≠ k)

/-! ### The filesystem oracle -/

structure FS where
  pathExists : FsPath → Bool
  isDir : FsPath → Bool
  canonicalize : FsPath → Except Unit FsPath

/-! ### Diagnostics (src/main.rs:84-154) -/

/-- The fields of `lsp_types::Diagnostic` the source sets.  LSP positions are
`u32`, and the source converts the `usize` line with `as u32`, hence the
`% 2 ^ 32`. -/
structure Diagnostic where
  startLine : Nat
  startChar : Nat
  endLine : Nat
  endChar : Nat
  severity : Nat
  source : Option String
  message : String
deriving DecidableEq, Repr

/-- `missing_file_diagnostic` (src/main.rs:84-110); `none` is the panic of the
`file_name().unwrap()`. -/
def missing_file_diagnostic (file_name : FsPath) (line : Nat) : Option Diagnostic :=
  (file_name.fileName).map (fun name =>
    { startLine := line % 2 ^ 32
      startChar := 200
      endLine := line % 2 ^ 32
      endChar := 200
      severity := 1
      source := some "grlx-lsp"
      message := "File " ++ name ++ " does not exist" })

/-- Sequence a list of `Option`s, short-circuiting on the first `none` — the
panic inside the `filter_map` closure aborts the whole call. -/
def mapMOpt {α β : Type} (f : α → Option β) : List α → Option (List β)
  | [] => some []
  | a :: l =>
    match f a with
    | none => none
    | some b => (mapMOpt f l).map (fun r => b :: r)

/-- The diagnostic list built by `generate_diagnostics` (src/main.rs:123-138):
entries whose candidate path exists produce nothing, the others one missing-
file diagnostic each.  (`HashMap` iteration order is arbitrary; the list is
produced here in mapping order, which no claim distinguishes.) -/
def diagsFor (fs : FS) (m : Mapping) : Option (List Diagnostic) :=
  mapMOpt (fun e => missing_file_diagnostic e.2 e.1)
    (m.filter (fun e => !fs.pathExists e.2))

/-- Outbound protocol traffic of the core: a batched diagnostics publish
notification, or a goto-definition response whose location is a range in the
target file. -/
inductive OutMsg where
  | publish (uri : Url) (diags : List Diagnostic)
  | response (id : Nat) (uri : Url) (startLine startChar endLine endChar : Nat)
deriving DecidableEq, Repr

/-- `generate_diagnostics` (src/main.rs:117-154): look the document up in the
`files` table (`unwrap`, so `none` is a panic), build the diagnostic list, and
send one publish notification only when the list is non-empty. -/
def generate_diagnostics (fs : FS) (files : Index) (file_name : Url) :
    Option (List OutMsg) :=
  match lookupIdx files file_name with
  | none => none
  | some m =>
    (diagsFor fs m).map (fun ds =>
      if ds.isEmpty then [] else [OutMsg.publish file_name ds])

/-! ### The document index update (`update_files`, src/main.rs:162-175) -/

/-- `update_files`: `none` is the panic of `to_file_path().unwrap()` or
`parent().unwrap()`; otherwise the freshly scanned mapping replaces the
document's binding. -/
def update_files (files : Index) (file_name : Url) (file : String) : Option Index :=
  match file_name.toFilePath with
  | none => none
  | some p =>
    match p.parent with
    | none => none
    | some base =>
      some (updateIndex files file_name (parse_includes_map file.data base))

/-! ### Inbound messages and one step of the event loop (src/main.rs:178-289)

Deserialisation of parameters is external (serde); a parameter payload that
fails to deserialise is `none`. -/

structure DefParams where
  uri : Url
  line : Nat
  character : Nat
deriving DecidableEq, Repr

structure OpenParams where
  uri : Url
  text : String
deriving DecidableEq, Repr

structure ChangeParams where
  uri : Url
  contentChanges : List String
deriving DecidableEq, Repr

inductive InMsg where
  | defRequest (id : Nat) (params : Option DefParams)
  | otherRequest (method : String)
  | response
  | didOpen (params : Option OpenParams)
  | didChange (params : Option ChangeParams)
  | otherNotification (method : String)
deriving DecidableEq, Repr

/-- The outcome of processing one inbound message: the updated table and the
messages sent, a panic (`unwrap` / `panic!` / out-of-bounds index), or a
`?`-propagated fatal error. -/
inductive StepResult where
  | ok (files : Index) (out : List OutMsg)
  | panicked
  | fatal
deriving DecidableEq, Repr

/-- One iteration of `event_loop` (src/main.rs:183-287).

* `textDocument/definition`: undeserialisable params hit
  `panic!("{err:?}")`; an unknown document or line silently produces no
  response; the candidate path is preferred, then the stem-named sibling
  directory, else `continue`; the chosen target is canonicalised (`?`, fatal
  on error); if the canonical path is a directory, `init.grlx` is appended;
  `Url::from_file_path(..).unwrap()` panics on a relative result.
* `textDocument/didOpen` / `didChange`: undeserialisable params are silently
  ignored; `didChange` reads `content_changes[0]` unconditionally; then
  `update_files` and `generate_diagnostics`.
* everything else is logged and ignored. -/
def handleMessage (fs : FS) (files : Index) (msg : InMsg) : StepResult :=
  match msg with
  | .defRequest id params =>
    match params with
    | none => .panicked
    | some p =>
      match lookupIdx files p.uri with
      | none => .ok files []
      | some m =>
        match lookupLine m p.line with
        | none => .ok files []
        | some path =>
          match path.fileStem, path.parent with
          | some stem, some par =>
            let dirPath := par.join stem
            if !fs.pathExists path && !fs.pathExists dirPath then .ok files []
            else
              let target := if fs.pathExists path then path else dirPath
              match fs.canonicalize target with
              | .error _ => .fatal
              | .ok c =>
                let completePath := if fs.isDir c then c.join "init.grlx" else c
                if completePath.abs then
                  .ok files [.response id { scheme := "file", path := completePath } 0 0 0 0]
                else .panicked
          | _, _ => .panicked
  | .otherRequest _ => .ok files []
  | .response => .ok files []
  | .didOpen params =>
    match params with
    | none => .ok files []
    | some p =>
      match update_files files p.uri p.text with
      | none => .panicked
      | some files2 =>
        match generate_diagnostics fs files2 p.uri with
        | none => .panicked
        | some out => .ok files2 out
  | .didChange params =>
    match params with
    | none => .ok files []
    | some p =>
      match p.contentChanges with
      | [] => .panicked
      | text :: _ =>
        match update_files files p.uri text with
        | none => .panicked
        | some files2 =>
          match generate_diagnostics fs files2 p.uri with
          | none => .panicked
          | some out => .ok files2 out
  | .otherNotification _ => .ok files []

/-- The result of running the loop over a message sequence: a panic or a
propagated error stops it (the `?` in `event_loop` returns from the function),
and the outbound messages sent up to that point are kept. -/
inductive LoopResult where
  | finished (files : Index) (out : List OutMsg)
  | panicked (out : List OutMsg)
  | fatal (out : List OutMsg)
deriving DecidableEq, Repr

/-- `event_loop`'s `for msg in &connection.receiver` over a finite inbound
sequence. -/
def runLoop (fs : FS) (files : Index) : List InMsg → LoopResult
  | [] => .finished files []
  | m :: ms =>
    match handleMessage fs files m with
    | .ok f out =>
      match runLoop fs f ms with
      | .finished f2 o2 => .finished f2 (out ++ o2)
      | .panicked o2 => .panicked (out ++ o2)
      | .fatal o2 => .fatal (out ++ o2)
    | .panicked => .panicked []
    | .fatal => .fatal []

/-! ### Claim-side definitions

The following definitions transcribe the spec's wording (not the source) and
exist only to be compared with the source embedding above. -/

/-- Module name as the spec words it: a reference text beginning with `.`
immediately followed by one or more alphanumeric characters yields that
alphanumeric run; otherwise the whole reference text. -/
def specModuleName (ref : List Char) : List Char :=
  match ref with
  | '.' :: rest =>
    let run := rest.takeWhile isAsciiAlphanum
    if run.isEmpty then ref else run
  | _ => ref

/-- Line grammar as the claim words it: exactly two leading spaces, a literal
dash, one or more whitespace characters, then the remainder of the line
verbatim. -/
def specLineMatch (l : List Char) : Bool :=
  match l with
  | ' ' :: ' ' :: '-' :: rest => !(rest.takeWhile isMultispace).isEmpty
  | _ => false

/-- The amended line grammar: as `specLineMatch`, but the remainder after the
maximal whitespace run must not contain a carriage return (the reference-text
parser rejects a lone CR). -/
def specLineMatchCR (l : List Char) : Bool :=
  match l with
  | ' ' :: ' ' :: '-' :: rest =>
    let ws := rest.takeWhile isMultispace
    !ws.isEmpty && !decide ('\r' ∈ rest.drop ws.length)
  | _ => false

/-- The claim's scanning window: strictly after the first line beginning with
`include:`, strictly before the first subsequent line beginning with `steps:`
(to document end when there is none). -/
def specInWindow (lines : List (List Char)) (n : Nat) : Bool :=
  let i := findIdxF isIncludeLine lines
  decide (i < lines.length) && decide (i < n) &&
    decide (n < i + 1 + findIdxF isStepsLine (lines.drop (i + 1)))

/-- Claim C3 as stated: a line contributes an entry iff it lies in the window
and matches the stated grammar. -/
def specC3Statement : Prop :=
  ∀ (text : List Char) (base : FsPath) (n : Nat) (line : List Char),
    (rustLines text).get? n = some line →
    ((specInWindow (rustLines text) n && specLineMatch line) = true ↔
      (lookupLine (parse_includes_map text base) n).isSome = true)

/-- The definition-resolution claim C1, restricted to the directory-fallback
branch it mis-states: once the directory candidate is the target, `init.grlx`
is appended if the target is a directory, the final target is then
canonicalised, and one response is sent pointing at the canonicalised final
target. -/
def specC1Statement : Prop :=
  ∀ (fs : FS) (files : Index) (id : Nat) (p : DefParams) (m : Mapping)
    (path : FsPath) (st : String) (par : FsPath),
    lookupIdx files p.uri = some m →
    lookupLine m p.line = some path →
    path.fileStem = some st →
    path.parent = some par →
    fs.pathExists path = false →
    fs.pathExists (par.join st) = true →
    ∃ c, fs.canonicalize
        (if fs.isDir (par.join st) then (par.join st).join "init.grlx"
         else par.join st) = .ok c ∧
      handleMessage fs files (.defRequest id (some p)) =
        .ok files [.response id { scheme := "file", path := c } 0 0 0 0]

/-- Claim C6 as stated, restricted to the case it mis-states: a definition
request whose parameters fail to deserialise is silently ignored. -/
def specC6Statement : Prop :=
  ∀ (fs : FS) (files : Index) (id : Nat),
    handleMessage fs files (.defRequest id none) = .ok files []

/-! ### Lemmas on the nom primitives -/

/-- On input free of line feeds, `not_line_ending` fails exactly when a
carriage return is present, and otherwise consumes everything. -/
theorem notLineEnding_no_nl (s : List Char) (h : '\n' ∉ s) :
    notLineEnding s = if '\r' ∈ s then none else some (s, []) := by
  induction s with
  | nil => simp [notLineEnding]
  | cons c cs ih =>
    have hc : c ≠ '\n' := fun hcn => h (hcn ▸ List.mem_cons_self c cs)
    have hcs : '\n' ∉ cs := fun hm => h (List.mem_cons_of_mem c hm)
    by_cases hr : c = '\r'
    · subst hr
      have hhd : cs.head? ≠ some '\n' := by
        cases cs with
        | nil => simp
        | cons d ds =>
          have hd : d ≠ '\n' := fun hdn => hcs (hdn ▸ List.mem_cons_self d ds)
          simpa using hd
      rw [notLineEnding, if_neg (by decide), if_pos rfl, if_neg hhd,
        if_pos (List.mem_cons_self _ _)]
    · rw [notLineEnding, if_neg hc, if_neg hr, ih hcs]
      by_cases hrs : '\r' ∈ cs
      · rw [if_pos hrs, if_pos (List.mem_cons_of_mem c hrs)]
      · rw [if_neg hrs, if_neg (by simp [Ne.symm hr, hrs])]

/-- The text consumed by `not_line_ending` contains neither carriage return
nor line feed. -/
theorem notLineEnding_clean (s t r : List Char)
    (h : notLineEnding s = some (t, r)) : '\r' ∉ t ∧ '\n' ∉ t := by
  induction s generalizing t r with
  | nil =>
    rw [notLineEnding] at h
    simp only [Option.some.injEq, Prod.mk.injEq] at h
    simp [← h.1]
  | cons c cs ih =>
    rw [notLineEnding] at h
    by_cases hc : c = '\n'
    · rw [if_pos hc] at h
      simp only [Option.some.injEq, Prod.mk.injEq] at h
      simp [← h.1]
    · rw [if_neg hc] at h
      by_cases hr : c = '\r'
      · rw [if_pos hr] at h
        by_cases hhd : cs.head? = some '\n'
        · rw [if_pos hhd] at h
          simp only [Option.some.injEq, Prod.mk.injEq] at h
          simp [← h.1]
        · rw [if_neg hhd] at h
          exact absurd h (by simp)
      · rw [if_neg hr] at h
        cases hne : notLineEnding cs with
        | none => rw [hne] at h; exact absurd h (by simp)
        | some p =>
          rw [hne] at h
          simp only [Option.some.injEq, Prod.mk.injEq] at h
          obtain ⟨ht, _⟩ := h
          obtain ⟨ih1, ih2⟩ := ih p.1 p.2 (by rw [hne])
          constructor
          · intro hm
            rw [← ht] at hm
            rcases List.mem_cons.mp hm with h1 | h1
            · exact hr h1.symm
            · exact ih1 h1
          · intro hm
            rw [← ht] at hm
            rcases List.mem_cons.mp hm with h1 | h1
            · exact hc h1.symm
            · exact ih2 h1

/-- Segments produced by `splitOnChar` never contain the separator. -/
theorem splitOnChar_not_mem (sep : Char) (s : List Char) :
    ∀ seg ∈ splitOnChar sep s, sep ∉ seg := by
  induction s with
  | nil =>
    intro seg hseg
    rw [splitOnChar] at hseg
    simp only [List.mem_singleton] at hseg
    simp [hseg]
  | cons c cs ih =>
    intro seg hseg
    cases hsp : splitOnChar sep cs with
    | nil =>
      simp only [splitOnChar, hsp, List.mem_singleton] at hseg
      simp [hseg]
    | cons s0 rest =>
      simp only [splitOnChar, hsp] at hseg
      by_cases hc : c = sep
      · rw [if_pos hc] at hseg
        rcases List.mem_cons.mp hseg with h1 | h1
        · simp [h1]
        · exact ih seg (hsp ▸ h1)
      · rw [if_neg hc] at hseg
        rcases List.mem_cons.mp hseg with h1 | h1
        · subst h1
          intro hm
          rcases List.mem_cons.mp hm with h2 | h2
          · exact hc h2.symm
          · exact ih s0 (by rw [hsp]; exact List.mem_cons_self _ _) h2
        · exact ih seg (by rw [hsp]; exact List.mem_cons_of_mem _ h1)

/-- The last element of a list is a member. -/
theorem mem_of_getLast? {α : Type} (l : List α) (a : α)
    (h : l.getLast? = some a) : a ∈ l := by
  induction l with
  | nil => simp at h
  | cons b bs ih =>
    cases bs with
    | nil =>
      simp only [List.getLast?_singleton, Option.some.injEq] at h
      simp [h]
    | cons c cs =>
      rw [List.getLast?_cons_cons] at h
      exact List.mem_cons_of_mem b (ih h)

/-- Lines produced by `rustLines` contain no line feed. -/
theorem rustLines_no_nl (s : List Char) : ∀ l ∈ rustLines s, '\n' ∉ l := by
  intro l hl
  simp only [rustLines, List.mem_append] at hl
  rcases hl with hl | hl
  · simp only [List.mem_map] at hl
    obtain ⟨seg, hseg, hstrip⟩ := hl
    have hseg2 : seg ∈ splitOnChar '\n' s := List.dropLast_subset _ hseg
    intro hm
    have hmem : '\n' ∈ seg := by
      rw [← hstrip] at hm
      unfold stripCr at hm
      by_cases h2 : seg.getLast? = some '\r'
      · rw [if_pos h2] at hm
        exact List.dropLast_subset _ hm
      · rw [if_neg h2] at hm
        exact hm
    exact splitOnChar_not_mem '\n' s seg hseg2 hmem
  · cases hlast : (splitOnChar '\n' s).getLast? with
    | none => simp only [hlast] at hl; simp at hl
    | some last =>
      simp only [hlast] at hl
      by_cases hemp : last.isEmpty
      · rw [if_pos hemp] at hl
        simp at hl
      · rw [if_neg hemp] at hl
        simp only [List.mem_singleton] at hl
        subst hl
        exact fun hm => splitOnChar_not_mem '\n' s l
          (mem_of_getLast? _ _ hlast) hm

/-- The reference text produced by `parse_include_line` contains neither CR
nor LF. -/
theorem parse_include_line_clean (l ref : List Char)
    (h : parse_include_line l = some ref) : '\r' ∉ ref ∧ '\n' ∉ ref := by
  rw [parse_include_line.eq_def] at h
  split at h
  · rename_i rest
    simp only at h
    by_cases hws : (rest.takeWhile isMultispace).isEmpty
    · rw [if_pos hws] at h
      exact absurd h (by simp)
    · rw [if_neg hws] at h
      cases hne : notLineEnding (rest.drop (rest.takeWhile isMultispace).length) with
      | none => rw [hne] at h; exact absurd h (by simp)
      | some p =>
        rw [hne] at h
        simp only [Option.map_some', Option.some.injEq] at h
        exact h ▸ notLineEnding_clean _ p.1 p.2 (by rw [hne])
  · exact absurd h (by simp)

/-- A line whose first character is not a space never parses. -/
theorem parse_include_line_head (c : Char) (cs : List Char) (hc : c ≠ ' ') :
    parse_include_line (c :: cs) = none := by
  rw [parse_include_line.eq_def]
  split
  · rename_i rest heq
    exact absurd (List.cons.inj heq).1 hc
  · rfl

/-- On a line free of line feeds, `parse_include_line` succeeds exactly when
the amended grammar matches: two spaces, a dash, at least one whitespace
character, and a CR-free remainder. -/
theorem parse_include_line_isSome (l : List Char) (h : '\n' ∉ l) :
    (parse_include_line l).isSome = specLineMatchCR l := by
  rw [parse_include_line.eq_def, specLineMatchCR.eq_def]
  split
  · rename_i rest
    have hsub : '\n' ∉ rest.drop (rest.takeWhile isMultispace).length := by
      intro hm
      exact h (by
        simp only [List.mem_cons]
        exact Or.inr (Or.inr (Or.inr (List.drop_subset _ _ hm))))
    by_cases hws : (rest.takeWhile isMultispace).isEmpty
    · simp [hws]
    · rw [if_neg hws, notLineEnding_no_nl _ hsub]
      by_cases hr : '\r' ∈ rest.drop (rest.takeWhile isMultispace).length
      · simp [hr, hws]
      · simp [hr, hws]
  · rfl

/-- Whether an entry is recorded for a line depends only on
`parse_include_line` succeeding: both `parse_current` outcomes record one. -/
theorem entryPath_isSome (base : FsPath) (l : List Char) :
    (entryPath base l).isSome = (parse_include_line l).isSome := by
  unfold entryPath
  cases h : parse_include_line l with
  | none => simp
  | some ref =>
    cases h2 : parse_current ref with
    | none => simp [h2]
    | some run => simp [h2]

/-- A text starting with a pattern starts with the pattern's head. -/
theorem startsWithChars_cons (p : Char) (ps : List Char) (l : List Char)
    (h : startsWithChars (p :: ps) l = true) :
    ∃ cs, l = p :: cs ∧ startsWithChars ps cs = true := by
  cases l with
  | nil => exact absurd h (by simp [startsWithChars])
  | cons c cs =>
    simp only [startsWithChars, Bool.and_eq_true, beq_iff_eq] at h
    exact ⟨cs, by rw [h.1], h.2⟩

/-- A line that carries the `include:` marker never parses as an include
entry. -/
theorem marker_no_entry (l : List Char) (h : isIncludeLine l = true) :
    parse_include_line l = none := by
  rw [isIncludeLine] at h
  have hdat : "include:".data = 'i' :: "nclude:".data := rfl
  rw [hdat] at h
  obtain ⟨cs, hl, _⟩ := startsWithChars_cons _ _ _ h
  rw [hl]
  exact parse_include_line_head _ _ (by decide)

/-- A line that carries the `include:` marker does not carry `steps:`. -/
theorem marker_not_steps (l : List Char) (h : isIncludeLine l = true) :
    isStepsLine l = false := by
  rw [isIncludeLine] at h
  have hdat : "include:".data = 'i' :: "nclude:".data := rfl
  rw [hdat] at h
  obtain ⟨cs, hl, _⟩ := startsWithChars_cons _ _ _ h
  rw [isStepsLine, hl]
  have hdat2 : "steps:".data = 's' :: "teps:".data := rfl
  rw [hdat2]
  simp [startsWithChars]

/-- A reference text not starting with a dot takes the fallback branch. -/
theorem parse_current_head (c : Char) (rest : List Char) (hc : c ≠ '.') :
    parse_current (c :: rest) = none := by
  rw [parse_current.eq_def]
  split
  · rename_i heq
    exact absurd (List.cons.inj heq).1 hc
  · rfl

/-- The spec-side module name of a reference text not starting with a dot is
the reference text itself. -/
theorem specModuleName_head (c : Char) (rest : List Char) (hc : c ≠ '.') :
    specModuleName (c :: rest) = c :: rest := by
  rw [specModuleName.eq_def]
  split
  · rename_i heq
    exact absurd (List.cons.inj heq).1 hc
  · rfl

/-- Claim C2: for every reference text matched by the line grammar, the
recorded entry keys the line number to the base directory joined with the
module name plus `.grlx`, where the module name is the leading alphanumeric
run when the reference starts with `.` followed by at least one alphanumeric
character (any trailing text ignored), and the whole reference text
otherwise. -/
theorem c2_module_name (base : FsPath) (n : Nat) (l ref : List Char)
    (h : parse_include_line l = some ref) :
    include_entry base (n, l) =
      some (n, base.join (String.mk (specModuleName ref) ++ ".grlx")) := by
  obtain ⟨hr, hn⟩ := parse_include_line_clean l ref h
  unfold include_entry entryPath
  simp only [h]
  cases ref with
  | nil => simp [parse_current, specModuleName]
  | cons c rest =>
    by_cases hc : c = '.'
    · subst hc
      have hrr : '\r' ∉ rest.drop (rest.takeWhile isAsciiAlphanum).length := by
        intro hm
        exact hr (List.mem_cons_of_mem _ (List.drop_subset _ _ hm))
      have hnn : '\n' ∉ rest.drop (rest.takeWhile isAsciiAlphanum).length := by
        intro hm
        exact hn (List.mem_cons_of_mem _ (List.drop_subset _ _ hm))
      by_cases hrun : (rest.takeWhile isAsciiAlphanum).isEmpty
      · simp [parse_current, specModuleName, hrun]
      · simp [parse_current, specModuleName, hrun,
          notLineEnding_no_nl _ hnn, if_neg hrr]
    · rw [parse_current_head c rest hc, specModuleName_head c rest hc]
      rfl

/-- Witness for C2 at the repository's own test vector `"  - .apache"`. -/
theorem c2_module_name_witness :
    include_entry { abs := true, comps := ["srv"] } (3, "  - .apache".data) =
      some (3, FsPath.join { abs := true, comps := ["srv"] }
        (String.mk (specModuleName ".apache".data) ++ ".grlx")) :=
  c2_module_name { abs := true, comps := ["srv"] } 3 "  - .apache".data
    ".apache".data (by decide)

/-! ### Window lemmas: the iterator pipeline as index arithmetic -/

/-- `skip_while` on an enumerated list drops up to the first hit of `g`. -/
theorem enumF_dropWhile {α : Type} (g : α → Bool) (l : List α) :
    ∀ k, (enumF k l).dropWhile (fun p => !g p.2) =
      (enumF k l).drop (findIdxF g l) := by
  induction l with
  | nil => intro k; rfl
  | cons a l ih =>
    intro k
    by_cases hg : g a
    · simp [enumF, findIdxF, hg, List.dropWhile]
    · simp [enumF, findIdxF, hg, List.dropWhile, ih (k + 1)]

/-- `take_while` on an enumerated list takes up to the first hit of `g`. -/
theorem enumF_takeWhile {α : Type} (g : α → Bool) (l : List α) :
    ∀ k, (enumF k l).takeWhile (fun p => !g p.2) =
      enumF k (l.take (findIdxF g l)) := by
  induction l with
  | nil => intro k; rfl
  | cons a l ih =>
    intro k
    by_cases hg : g a
    · simp [enumF, findIdxF, hg, List.takeWhile]
    · simp [enumF, findIdxF, hg, List.takeWhile, ih (k + 1)]

/-- Dropping from an enumerated list shifts the enumeration base. -/
theorem enumF_drop {α : Type} (l : List α) :
    ∀ k n, (enumF k l).drop n = enumF (k + n) (l.drop n) := by
  induction l with
  | nil => intro k n; simp [enumF]
  | cons a l ih =>
    intro k n
    cases n with
    | zero => rfl
    | succ m =>
      simp only [enumF, List.drop_succ_cons, ih (k + 1) m]
      congr 1
      omega

/-- Looking a line number up in the scanned entries of an enumerated window
is indexing the window. -/
theorem lookup_filterMap_enumF (base : FsPath) (m : List (List Char)) :
    ∀ k n, lookupLine ((enumF k m).filterMap (include_entry base)) n =
      if k ≤ n then (m.get? (n - k)).bind (entryPath base) else none := by
  induction m with
  | nil =>
    intro k n
    simp only [enumF, List.filterMap_nil, lookupLine]
    by_cases h : k ≤ n
    · simp [h]
    · simp [h]
  | cons a l ih =>
    intro k n
    simp only [enumF]
    cases hep : entryPath base a with
    | none =>
      have hie : include_entry base (k, a) = none := by simp [include_entry, hep]
      rw [List.filterMap_cons_none hie]
      rw [ih (k + 1) n]
      by_cases hkn : k ≤ n
      · by_cases heq : n = k
        · subst heq
          rw [if_neg (by omega), if_pos (le_refl _)]
          simp [hep]
        · rw [if_pos (by omega), if_pos hkn]
          have hnk : n - k = (n - (k + 1)) + 1 := by omega
          rw [hnk]
          simp
      · rw [if_neg (by omega), if_neg hkn]
    | some fp =>
      have hie : include_entry base (k, a) = some (k, fp) := by
        simp [include_entry, hep]
      rw [List.filterMap_cons_some hie]
      simp only [lookupLine]
      by_cases heq : k = n
      · subst heq
        rw [if_pos rfl, if_pos (le_refl _)]
        simp [hep]
      · rw [if_neg heq, ih (k + 1) n]
        by_cases hkn : k ≤ n
        · rw [if_pos (by omega), if_pos hkn]
          have hnk : n - k = (n - (k + 1)) + 1 := by omega
          rw [hnk]
          simp
        · rw [if_neg (by omega), if_neg hkn]

/-- The lookup of `parse_includes_map` as window indexing: drop to the first
`include:` marker line, take to the first `steps:` marker line, index. -/
theorem lookup_parse_includes_map (text : List Char) (base : FsPath) (n : Nat) :
    lookupLine (parse_includes_map text base) n =
      (if findIdxF isIncludeLine (rustLines text) ≤ n then
        ((((rustLines text).drop (findIdxF isIncludeLine (rustLines text))).take
            (findIdxF isStepsLine
              ((rustLines text).drop
                (findIdxF isIncludeLine (rustLines text))))).get?
          (n - findIdxF isIncludeLine (rustLines text))).bind (entryPath base)
      else none) := by
  unfold parse_includes_map
  rw [enumF_dropWhile isIncludeLine (rustLines text) 0,
    enumF_drop (rustLines text) 0 (findIdxF isIncludeLine (rustLines text)),
    Nat.zero_add,
    enumF_takeWhile isStepsLine
      ((rustLines text).drop (findIdxF isIncludeLine (rustLines text)))
      (findIdxF isIncludeLine (rustLines text)),
    lookup_filterMap_enumF]

/-- Indexing a `take` prefix. -/
theorem get?_take' {α : Type} (l : List α) :
    ∀ j t, (l.take j).get? t = if t < j then l.get? t else none := by
  induction l with
  | nil =>
    intro j t
    simp
  | cons a l ih =>
    intro j t
    cases j with
    | zero => simp
    | succ m =>
      cases t with
      | zero => simp
      | succ s =>
        simp only [List.take_succ_cons, List.get?_cons_succ, ih m s,
          Nat.succ_lt_succ_iff]

/-- Indexing a `drop` suffix. -/
theorem get?_drop' {α : Type} (l : List α) :
    ∀ i t, (l.drop i).get? t = l.get? (i + t) := by
  induction l with
  | nil => intro i t; simp
  | cons a l ih =>
    intro i t
    cases i with
    | zero => simp
    | succ m =>
      rw [List.drop_succ_cons, ih m t]
      have harith : m + 1 + t = (m + t) + 1 := by omega
      rw [harith, List.get?_cons_succ]

/-- A list with a member at index `i` splits there. -/
theorem drop_eq_cons_of_get? {α : Type} (l : List α) :
    ∀ (i : Nat) (a : α), l.get? i = some a → l.drop i = a :: l.drop (i + 1) := by
  induction l with
  | nil => intro i a h; simp at h
  | cons b bs ih =>
    intro i a h
    cases i with
    | zero =>
      simp only [List.get?_cons_zero, Option.some.injEq] at h
      subst h
      rfl
    | succ m =>
      simp only [List.get?_cons_succ] at h
      simp only [List.drop_succ_cons]
      exact ih m a h

/-- The first-hit index never exceeds the length. -/
theorem findIdxF_le {α : Type} (g : α → Bool) (l : List α) :
    findIdxF g l ≤ l.length := by
  induction l with
  | nil => simp [findIdxF]
  | cons a l ih =>
    by_cases hg : g a
    · simp [findIdxF, hg]
    · rw [findIdxF, if_neg hg]
      simp only [List.length_cons]
      omega

/-- A first-hit index inside the list points at a hit. -/
theorem findIdxF_get {α : Type} (g : α → Bool) (l : List α)
    (h : findIdxF g l < l.length) :
    ∃ a, l.get? (findIdxF g l) = some a ∧ g a = true := by
  induction l with
  | nil => simp [findIdxF] at h
  | cons a l ih =>
    by_cases hg : g a
    · exact ⟨a, by simp [findIdxF, hg], hg⟩
    · rw [findIdxF, if_neg hg] at h ⊢
      simp only [List.length_cons] at h
      obtain ⟨b, hb, hgb⟩ := ih (by omega)
      exact ⟨b, by simpa using hb, hgb⟩

/-- `entryPath` fails whenever the line grammar fails. -/
theorem entryPath_none (base : FsPath) (l : List Char)
    (h : parse_include_line l = none) : entryPath base l = none := by
  unfold entryPath
  simp [h]

/-- `specInWindow` with its let-binding unfolded. -/
theorem specInWindow_eq (L : List (List Char)) (n : Nat) :
    specInWindow L n =
      (decide (findIdxF isIncludeLine L < L.length) &&
        decide (findIdxF isIncludeLine L < n) &&
        decide (n < findIdxF isIncludeLine L + 1 +
          findIdxF isStepsLine (L.drop (findIdxF isIncludeLine L + 1)))) := rfl

/-- Window/grammar characterisation over an arbitrary list of LF-free lines:
the scanner records an entry for index `n` exactly when `n` is strictly
between the first `include:` marker and the next `steps:` marker and the line
matches the CR-amended grammar. -/
theorem window_iff (L : List (List Char)) (base : FsPath) (n : Nat)
    (line : List Char) (hclean : ∀ l ∈ L, '\n' ∉ l) (h : L.get? n = some line) :
    (specInWindow L n && specLineMatchCR line) = true ↔
      (if findIdxF isIncludeLine L ≤ n then
          (((L.drop (findIdxF isIncludeLine L)).take
              (findIdxF isStepsLine (L.drop (findIdxF isIncludeLine L)))).get?
            (n - findIdxF isIncludeLine L)).bind (entryPath base)
        else none).isSome = true := by
  have hnlen : n < L.length := by
    rcases List.get?_eq_some.mp h with ⟨hlt, _⟩
    exact hlt
  have hnl : '\n' ∉ line := hclean line (List.get?_mem h)
  have hmatch : (entryPath base line).isSome = specLineMatchCR line := by
    rw [entryPath_isSome, parse_include_line_isSome line hnl]
  rw [specInWindow_eq]
  set i := findIdxF isIncludeLine L with hidef
  set q := findIdxF isStepsLine (L.drop (i + 1)) with hqdef
  set j := findIdxF isStepsLine (L.drop i) with hjdef
  by_cases hin : i ≤ n
  · rw [if_pos hin]
    have hfound : findIdxF isIncludeLine L < L.length := by
      rw [← hidef]
      omega
    obtain ⟨a, ha, hga⟩ := findIdxF_get isIncludeLine L hfound
    rw [← hidef] at ha
    have hdrop : L.drop i = a :: L.drop (i + 1) := drop_eq_cons_of_get? L i a ha
    have hj : j = q + 1 := by
      rw [hjdef, hdrop, findIdxF, if_neg (by simp [marker_not_steps a hga]),
        ← hqdef]
    by_cases hieq : i = n
    · -- the marker line itself: inside the code window, but never an entry
      have haline : a = line := by
        rw [hieq, h] at ha
        exact (Option.some.inj ha).symm
      subst haline
      rw [hj, hdrop, List.take_succ_cons]
      have hni : n - i = 0 := by omega
      rw [hni, List.get?_cons_zero, Option.some_bind,
        entryPath_none base a (marker_no_entry a hga)]
      simp only [Option.isSome_none, Bool.and_eq_true, decide_eq_true_eq]
      constructor
      · rintro ⟨⟨⟨_, h2⟩, _⟩, _⟩
        omega
      · intro hff
        exact absurd hff (by simp)
    · have hilt : i < n := by omega
      rw [hj, hdrop, List.take_succ_cons]
      have hsub : n - i = (n - i - 1) + 1 := by omega
      rw [hsub, List.get?_cons_succ, get?_take', get?_drop']
      have harith : i + 1 + (n - i - 1) = n := by omega
      rw [harith, h]
      have hc1 : i < L.length := by omega
      by_cases hq : n - i - 1 < q
      · rw [if_pos hq, Option.some_bind, hmatch]
        simp only [Bool.and_eq_true, decide_eq_true_eq]
        constructor
        · rintro ⟨⟨⟨_, _⟩, _⟩, h4⟩
          exact h4
        · intro h4
          exact ⟨⟨⟨hc1, hilt⟩, by omega⟩, h4⟩
      · rw [if_neg hq]
        simp only [Option.none_bind, Option.isSome_none, Bool.and_eq_true,
          decide_eq_true_eq]
        constructor
        · rintro ⟨⟨⟨_, _⟩, h3⟩, _⟩
          exact absurd h3 (by omega)
        · intro hff
          exact absurd hff (by simp)
  · rw [if_neg hin]
    simp only [Option.isSome_none, Bool.and_eq_true, decide_eq_true_eq]
    constructor
    · rintro ⟨⟨⟨_, h2⟩, _⟩, _⟩
      omega
    · intro hff
      exact absurd hff (by simp)

/-- Claim C3 (amended): a line of the document contributes an entry to the
mapping if and only if it lies strictly after the first line beginning with
`include:` and strictly before the first subsequent line beginning with
`steps:` (to document end when there is none), and it matches the grammar
exactly two leading spaces, a literal dash, one or more whitespace
characters, and a remainder — the reference text — that contains no carriage
return.  (A lone CR inside the remainder makes the reference parser fail, so
the line is skipped.) -/
theorem c3_scanner_window (text : List Char) (base : FsPath) (n : Nat)
    (line : List Char) (h : (rustLines text).get? n = some line) :
    (specInWindow (rustLines text) n && specLineMatchCR line) = true ↔
      (lookupLine (parse_includes_map text base) n).isSome = true := by
  rw [lookup_parse_includes_map]
  exact window_iff (rustLines text) base n line (rustLines_no_nl text) h

/-- Witness for the amended C3 on a two-line document whose second line is a
well-formed include entry. -/
theorem c3_scanner_window_witness :
    (specInWindow (rustLines "include:\n  - .apache".data) 1 &&
        specLineMatchCR "  - .apache".data) = true ↔
      (lookupLine (parse_includes_map "include:\n  - .apache".data
        { abs := true, comps := ["srv"] }) 1).isSome = true :=
  c3_scanner_window "include:\n  - .apache".data { abs := true, comps := ["srv"] }
    1 "  - .apache".data (by decide)

/-- Counterexample to claim C3 as stated: the line `"  - a\rb"` sits inside
the window and matches the stated grammar (two spaces, dash, a space, then
the remainder `a\rb` verbatim), yet the scanner records no entry for it — the
reference parser rejects the lone carriage return. -/
theorem c3_counterexample : ¬ specC3Statement := by
  intro hspec
  have h2 := (hspec "include:\n  - a\rb".data { abs := true, comps := [] } 1
    "  - a\rb".data (by decide)).mp (by decide)
  exact absurd h2 (by decide)

/-! ### Diagnostics lemmas -/

/-- When every element maps to `some`, sequencing never aborts and agrees
with `filterMap`. -/
theorem mapMOpt_all_some {α β : Type} (f : α → Option β) :
    ∀ l : List α, (∀ x ∈ l, (f x).isSome) →
      mapMOpt f l = some (l.filterMap f) := by
  intro l
  induction l with
  | nil => intro _; rfl
  | cons a l ih =>
    intro hall
    have ha := hall a (List.mem_cons_self a l)
    cases hfa : f a with
    | none => rw [hfa] at ha; exact absurd ha (by simp)
    | some b =>
      rw [mapMOpt, hfa, ih (fun x hx => hall x (List.mem_cons_of_mem a hx)),
        List.filterMap_cons_some hfa]
      rfl

/-- The diagnostic built for an entry with key below `2 ^ 32` and a named
candidate carries the entry's own line. -/
theorem missing_file_diagnostic_eq (p : FsPath) (line : Nat) (nm : String)
    (hw : line < 2 ^ 32) (hfn : p.fileName = some nm) :
    missing_file_diagnostic p line = some
      { startLine := line, startChar := 200, endLine := line, endChar := 200,
        severity := 1, source := some "grlx-lsp",
        message := "File " ++ nm ++ " does not exist" } := by
  unfold missing_file_diagnostic
  rw [hfn]
  simp [Nat.mod_eq_of_lt (show line < 4294967296 by omega)]

/-- No diagnostic for line `line` arises from entries keyed elsewhere. -/
theorem diag_filter_none (fs : FS) (line : Nat) :
    ∀ m : Mapping, (∀ e ∈ m, e.1 < 2 ^ 32) →
      (∀ e ∈ m, (FsPath.fileName e.2).isSome) →
      (∀ e ∈ m, e.1 ≠ line) →
      (((m.filter (fun e => !fs.pathExists e.2)).filterMap
          (fun e => missing_file_diagnostic e.2 e.1)).filter
        (fun d => d.startLine == line)) = [] := by
  intro m
  induction m with
  | nil => intro _ _ _; rfl
  | cons e rest ih =>
    intro hw hnames hne
    have ihr := ih (fun x hx => hw x (List.mem_cons_of_mem e hx))
      (fun x hx => hnames x (List.mem_cons_of_mem e hx))
      (fun x hx => hne x (List.mem_cons_of_mem e hx))
    by_cases hex : fs.pathExists e.2
    · rw [List.filter_cons, if_neg (by simp [hex])]
      exact ihr
    · have hn := hnames e (List.mem_cons_self e rest)
      cases hfn : e.2.fileName with
      | none => rw [hfn] at hn; exact absurd hn (by simp)
      | some nm =>
        have hD := missing_file_diagnostic_eq e.2 e.1 nm
          (hw e (List.mem_cons_self e rest)) hfn
        rw [List.filter_cons, if_pos (by simp [hex]),
          List.filterMap_cons_some
            (f := fun x : Nat × FsPath => missing_file_diagnostic x.2 x.1) hD,
          List.filter_cons,
          if_neg (by simp [hne e (List.mem_cons_self e rest)])]
        exact ihr

/-- Claim C4: when diagnostics are generated for a mapping, an entry whose
candidate path exists contributes no diagnostic for its line, and an entry
whose candidate path does not exist contributes exactly one diagnostic on its
line: a zero-width range at column 200, severity Error (1), source
`grlx-lsp`, and message `File <basename> does not exist` built from the final
path component only. -/
theorem c4_missing_file_diagnostics (fs : FS) (m : Mapping) (line : Nat)
    (p : FsPath) (basename : String)
    (hnd : (m.map Prod.fst).Nodup)
    (hmem : (line, p) ∈ m)
    (hw : ∀ e ∈ m, e.1 < 2 ^ 32)
    (hnames : ∀ e ∈ m, (FsPath.fileName e.2).isSome)
    (hbn : p.fileName = some basename) :
    ∃ ds, diagsFor fs m = some ds ∧
      (fs.pathExists p = true → ds.filter (fun d => d.startLine == line) = []) ∧
      (fs.pathExists p = false → ds.filter (fun d => d.startLine == line) =
        [{ startLine := line, startChar := 200, endLine := line, endChar := 200,
           severity := 1, source := some "grlx-lsp",
           message := "File " ++ basename ++ " does not exist" }]) := by
  obtain ⟨m1, m2, hm⟩ := List.append_of_mem hmem
  subst hm
  have hds : diagsFor fs (m1 ++ (line, p) :: m2) =
      some (((m1 ++ (line, p) :: m2).filter
          (fun e => !fs.pathExists e.2)).filterMap
        (fun e => missing_file_diagnostic e.2 e.1)) := by
    unfold diagsFor
    apply mapMOpt_all_some
    intro e he
    have hn := hnames e (List.mem_of_mem_filter he)
    cases hfn : e.2.fileName with
    | none => rw [hfn] at hn; exact absurd hn (by simp)
    | some nm =>
      rw [missing_file_diagnostic_eq e.2 e.1 nm
        (hw e (List.mem_of_mem_filter he)) hfn]
      rfl
  simp only [List.map_append, List.map_cons, List.nodup_append] at hnd
  have hne1 : ∀ e ∈ m1, e.1 ≠ line := by
    intro e he heq
    exact (hnd.2.2 (heq ▸ List.mem_map_of_mem Prod.fst he))
      (List.mem_cons_self _ _)
  have hne2 : ∀ e ∈ m2, e.1 ≠ line := by
    intro e he heq
    exact (List.nodup_cons.mp hnd.2.1).1 (heq ▸ List.mem_map_of_mem Prod.fst he)
  have hw1 : ∀ e ∈ m1, e.1 < 2 ^ 32 :=
    fun e he => hw e (List.mem_append_left _ he)
  have hw2 : ∀ e ∈ m2, e.1 < 2 ^ 32 :=
    fun e he => hw e (List.mem_append_right _ (List.mem_cons_of_mem _ he))
  have hnames1 : ∀ e ∈ m1, (FsPath.fileName e.2).isSome :=
    fun e he => hnames e (List.mem_append_left _ he)
  have hnames2 : ∀ e ∈ m2, (FsPath.fileName e.2).isSome :=
    fun e he => hnames e (List.mem_append_right _ (List.mem_cons_of_mem _ he))
  have hwmid : line < 2 ^ 32 :=
    hw (line, p) (List.mem_append_right _ (List.mem_cons_self _ _))
  have hDmid := missing_file_diagnostic_eq p line basename hwmid hbn
  refine ⟨_, hds, ?_, ?_⟩
  · intro hex
    rw [List.filter_append, List.filterMap_append, List.filter_append,
      diag_filter_none fs line m1 hw1 hnames1 hne1,
      List.filter_cons, if_neg (by simp [hex]),
      diag_filter_none fs line m2 hw2 hnames2 hne2]
    rfl
  · intro hex
    rw [List.filter_append, List.filterMap_append, List.filter_append,
      diag_filter_none fs line m1 hw1 hnames1 hne1,
      List.filter_cons, if_pos (by simp [hex]),
      List.filterMap_cons_some
        (f := fun x : Nat × FsPath => missing_file_diagnostic x.2 x.1) hDmid,
      List.filter_cons, if_pos (by simp),
      diag_filter_none fs line m2 hw2 hnames2 hne2]
    rfl

/-- Witness for C4 on a one-entry mapping over a filesystem with no files. -/
theorem c4_missing_file_diagnostics_witness :
    ∃ ds, diagsFor
        { pathExists := fun _ => false, isDir := fun _ => false,
          canonicalize := fun q => Except.ok q }
        [(0, { abs := true, comps := ["srv", "apache.grlx"] })] = some ds ∧
      (FS.pathExists
          { pathExists := fun _ => false, isDir := fun _ => false,
            canonicalize := fun q => Except.ok q }
          { abs := true, comps := ["srv", "apache.grlx"] } = true →
        ds.filter (fun d => d.startLine == 0) = []) ∧
      (FS.pathExists
          { pathExists := fun _ => false, isDir := fun _ => false,
            canonicalize := fun q => Except.ok q }
          { abs := true, comps := ["srv", "apache.grlx"] } = false →
        ds.filter (fun d => d.startLine == 0) =
          [{ startLine := 0, startChar := 200, endLine := 0, endChar := 200,
             severity := 1, source := some "grlx-lsp",
             message := "File " ++ "apache.grlx" ++ " does not exist" }]) :=
  c4_missing_file_diagnostics
    { pathExists := fun _ => false, isDir := fun _ => false,
      canonicalize := fun q => Except.ok q }
    [(0, { abs := true, comps := ["srv", "apache.grlx"] })] 0
    { abs := true, comps := ["srv", "apache.grlx"] } "apache.grlx"
    (by decide) (by decide) (by decide) (by decide) (by decide)

/-! ### Index lemmas -/

/-- Filtering out another key leaves a lookup unchanged. -/
theorem lookupIdx_filter_ne (u k : Url) (h : u ≠ k) :
    ∀ files : Index,
      lookupIdx (files.filter (fun e => e.1 ≠ k)) u = lookupIdx files u := by
  intro files
  induction files with
  | nil => rfl
  | cons e rest ih =>
    by_cases he : e.1 = k
    · rw [List.filter_cons, if_neg (by simp [he]), lookupIdx,
        if_neg (by rw [he]; exact Ne.symm h)]
      exact ih
    · rw [List.filter_cons, if_pos (by simp [he]), lookupIdx, lookupIdx]
      by_cases heu : e.1 = u
      · rw [if_pos heu, if_pos heu]
      · rw [if_neg heu, if_neg heu]
        exact ih

/-- `insert` makes the inserted mapping the one found. -/
theorem lookupIdx_updateIndex_self (files : Index) (k : Url) (v : Mapping) :
    lookupIdx (updateIndex files k v) k = some v := by
  rw [updateIndex, lookupIdx, if_pos rfl]

/-- `insert` leaves other documents' mappings unchanged. -/
theorem lookupIdx_updateIndex_other (files : Index) (k : Url) (v : Mapping)
    (u : Url) (h : u ≠ k) :
    lookupIdx (updateIndex files k v) u = lookupIdx files u := by
  rw [updateIndex, lookupIdx, if_neg (Ne.symm h)]
  exact lookupIdx_filter_ne u k h files

/-! ### The document-event claims -/

/-- Claim C5: on a document-open or document-change event (with well-formed
parameters), a diagnostics publish event is sent iff the generated diagnostic
set is non-empty, and when sent it is one single batched event addressed to
that document carrying the whole set; an empty set sends nothing. -/
theorem c5_publish_iff_nonempty (fs : FS) (files : Index) (uri : Url)
    (text : String) (more : List String) (fp base : FsPath)
    (ds : List Diagnostic)
    (hfp : uri.toFilePath = some fp)
    (hpar : fp.parent = some base)
    (hds : diagsFor fs (parse_includes_map text.data base) = some ds) :
    handleMessage fs files (.didOpen (some ⟨uri, text⟩)) =
      .ok (updateIndex files uri (parse_includes_map text.data base))
        (if ds.isEmpty then [] else [.publish uri ds]) ∧
    handleMessage fs files (.didChange (some ⟨uri, text :: more⟩)) =
      .ok (updateIndex files uri (parse_includes_map text.data base))
        (if ds.isEmpty then [] else [.publish uri ds]) := by
  have hupd : update_files files uri text =
      some (updateIndex files uri (parse_includes_map text.data base)) := by
    simp [update_files, hfp, hpar]
  have hgen : generate_diagnostics fs
      (updateIndex files uri (parse_includes_map text.data base)) uri =
      some (if ds.isEmpty then [] else [OutMsg.publish uri ds]) := by
    simp [generate_diagnostics, lookupIdx_updateIndex_self, hds]
  constructor
  · simp only [handleMessage, hupd, hgen]
  · simp only [handleMessage, hupd, hgen]

/-- A filesystem oracle on which every path exists and none is a directory. -/
def c5fs : FS :=
  { pathExists := fun _ => true, isDir := fun _ => false,
    canonicalize := fun q => Except.ok q }

/-- A `file`-scheme document identifier for witnesses. -/
def c5uri : Url :=
  { scheme := "file", path := { abs := true, comps := ["d", "doc.grlx"] } }

/-- Witness for C5: opening a document whose single include resolves on a
filesystem where every path exists publishes nothing. -/
theorem c5_publish_iff_nonempty_witness :
    handleMessage c5fs [] (.didOpen (some ⟨c5uri, "include:\n  - .apache"⟩)) =
      .ok (updateIndex [] c5uri
          (parse_includes_map "include:\n  - .apache".data
            { abs := true, comps := ["d"] }))
        (if ([] : List Diagnostic).isEmpty then [] else [.publish c5uri []]) ∧
    handleMessage c5fs []
        (.didChange (some ⟨c5uri, ["include:\n  - .apache"]⟩)) =
      .ok (updateIndex [] c5uri
          (parse_includes_map "include:\n  - .apache".data
            { abs := true, comps := ["d"] }))
        (if ([] : List Diagnostic).isEmpty then [] else [.publish c5uri []]) :=
  c5_publish_iff_nonempty c5fs [] c5uri "include:\n  - .apache" []
    { abs := true, comps := ["d", "doc.grlx"] } { abs := true, comps := ["d"] }
    [] (by decide) (by decide) (by decide)

/-- Claim C7: each document-open or document-change event replaces the
document's mapping wholesale with exactly the mapping scanned from that
event's full text — other documents are untouched — and a line that only had
an entry in the old version afterwards yields no navigation result. -/
theorem c7_replacement (fs : FS) (files : Index) (uri : Url)
    (text : String) (more : List String) (fp base : FsPath)
    (ds : List Diagnostic)
    (hfp : uri.toFilePath = some fp)
    (hpar : fp.parent = some base)
    (hds : diagsFor fs (parse_includes_map text.data base) = some ds) :
    (∃ out, handleMessage fs files (.didOpen (some ⟨uri, text⟩)) =
      .ok (updateIndex files uri (parse_includes_map text.data base)) out) ∧
    (∃ out, handleMessage fs files (.didChange (some ⟨uri, text :: more⟩)) =
      .ok (updateIndex files uri (parse_includes_map text.data base)) out) ∧
    lookupIdx (updateIndex files uri (parse_includes_map text.data base)) uri =
      some (parse_includes_map text.data base) ∧
    (∀ u2, u2 ≠ uri →
      lookupIdx (updateIndex files uri (parse_includes_map text.data base)) u2 =
        lookupIdx files u2) ∧
    (∀ id n ch, lookupLine (parse_includes_map text.data base) n = none →
      handleMessage fs (updateIndex files uri (parse_includes_map text.data base))
          (.defRequest id (some ⟨uri, n, ch⟩)) =
        .ok (updateIndex files uri (parse_includes_map text.data base)) []) := by
  have hupd : update_files files uri text =
      some (updateIndex files uri (parse_includes_map text.data base)) := by
    simp [update_files, hfp, hpar]
  refine ⟨?_, ?_, lookupIdx_updateIndex_self files uri _, ?_, ?_⟩
  · refine ⟨?_, ?_⟩
    · exact (generate_diagnostics fs
        (updateIndex files uri (parse_includes_map text.data base)) uri).getD []
    · simp only [handleMessage, hupd]
      simp [generate_diagnostics, lookupIdx_updateIndex_self, hds]
  · refine ⟨?_, ?_⟩
    · exact (generate_diagnostics fs
        (updateIndex files uri (parse_includes_map text.data base)) uri).getD []
    · simp only [handleMessage, hupd]
      simp [generate_diagnostics, lookupIdx_updateIndex_self, hds]
  · intro u2 h2
    exact lookupIdx_updateIndex_other files uri _ u2 h2
  · intro id n ch hnone
    simp only [handleMessage, lookupIdx_updateIndex_self, hnone]

/-- Witness for C7: a change event that empties the include list of the
witness document of C5. -/
theorem c7_replacement_witness :
    (∃ out, handleMessage c5fs [] (.didOpen (some ⟨c5uri, "steps:"⟩)) =
      .ok (updateIndex [] c5uri
        (parse_includes_map "steps:".data { abs := true, comps := ["d"] })) out) ∧
    (∃ out, handleMessage c5fs [] (.didChange (some ⟨c5uri, ["steps:"]⟩)) =
      .ok (updateIndex [] c5uri
        (parse_includes_map "steps:".data { abs := true, comps := ["d"] })) out) ∧
    lookupIdx (updateIndex [] c5uri
        (parse_includes_map "steps:".data { abs := true, comps := ["d"] })) c5uri =
      some (parse_includes_map "steps:".data { abs := true, comps := ["d"] }) ∧
    (∀ u2, u2 ≠ c5uri →
      lookupIdx (updateIndex [] c5uri
          (parse_includes_map "steps:".data { abs := true, comps := ["d"] })) u2 =
        lookupIdx [] u2) ∧
    (∀ id n ch,
      lookupLine (parse_includes_map "steps:".data { abs := true, comps := ["d"] })
        n = none →
      handleMessage c5fs
          (updateIndex [] c5uri
            (parse_includes_map "steps:".data { abs := true, comps := ["d"] }))
          (.defRequest id (some ⟨c5uri, n, ch⟩)) =
        .ok (updateIndex [] c5uri
          (parse_includes_map "steps:".data { abs := true, comps := ["d"] })) []) :=
  c7_replacement c5fs [] c5uri "steps:" []
    { abs := true, comps := ["d", "doc.grlx"] } { abs := true, comps := ["d"] }
    [] (by decide) (by decide) (by decide)

/-- Claim C8: when a resolution target has been chosen for a navigation
request and canonicalising it fails, the failure propagates upward as the
step's fatal outcome and no navigation response is sent. -/
theorem c8_canonicalize_failure (fs : FS) (files : Index) (id n ch : Nat)
    (uri : Url) (m : Mapping) (p : FsPath) (st : String) (par : FsPath)
    (hidx : lookupIdx files uri = some m)
    (hline : lookupLine m n = some p)
    (hstem : p.fileStem = some st)
    (hpar : p.parent = some par)
    (hchosen : fs.pathExists p = true ∨ fs.pathExists (par.join st) = true)
    (hcanon : fs.canonicalize (if fs.pathExists p then p else par.join st) =
      .error ()) :
    handleMessage fs files (.defRequest id (some ⟨uri, n, ch⟩)) = .fatal := by
  by_cases hex : fs.pathExists p
  · rw [if_pos hex] at hcanon
    simp [handleMessage, hidx, hline, hstem, hpar, hex, hcanon]
  · rw [if_neg hex] at hcanon
    rcases hchosen with hc | hc
    · exact absurd hc hex
    · simp [handleMessage, hidx, hline, hstem, hpar, hex, hc, hcanon]

/-- A filesystem oracle on which every path exists but nothing can be
canonicalised (for example, every lookup fails with a permission error). -/
def c8fs : FS :=
  { pathExists := fun _ => true, isDir := fun _ => false,
    canonicalize := fun _ => Except.error () }

/-- Witness for C8 on a one-document index whose line 2 maps to
`/d/m.grlx`. -/
theorem c8_canonicalize_failure_witness :
    handleMessage c8fs
        [(c5uri, [(2, { abs := true, comps := ["d", "m.grlx"] })])]
        (.defRequest 7 (some ⟨c5uri, 2, 0⟩)) = .fatal :=
  c8_canonicalize_failure c8fs
    [(c5uri, [(2, { abs := true, comps := ["d", "m.grlx"] })])] 7 2 0 c5uri
    [(2, { abs := true, comps := ["d", "m.grlx"] })]
    { abs := true, comps := ["d", "m.grlx"] } "m" { abs := true, comps := ["d"] }
    (by decide) (by decide) (by decide) (by decide) (by decide) (by rfl)

/-- Claim C9: a document-change notification whose content-change list is
empty panics — the handler indexes element 0 of the list unconditionally,
before any use of the document identifier. -/
theorem c9_empty_content_changes (fs : FS) (files : Index) (uri : Url) :
    handleMessage fs files (.didChange (some ⟨uri, []⟩)) = .panicked := rfl

/-- Claim C10: a document-open or document-change event whose identifier does
not convert to a local file path with a parent directory panics (the
`to_file_path().unwrap()` / `parent().unwrap()` in `update_files`) instead of
being silently ignored. -/
theorem c10_nonfile_uri (fs : FS) (files : Index) (uri : Url) (text : String)
    (more : List String)
    (h : uri.toFilePath.bind FsPath.parent = none) :
    handleMessage fs files (.didOpen (some ⟨uri, text⟩)) = .panicked ∧
    handleMessage fs files (.didChange (some ⟨uri, text :: more⟩)) =
      .panicked := by
  have hupd : update_files files uri text = none := by
    unfold update_files
    cases hfp : uri.toFilePath with
    | none => rfl
    | some fp =>
      rw [hfp] at h
      simp only [Option.some_bind] at h
      simp [h]
  constructor
  · simp only [handleMessage, hupd]
  · simp only [handleMessage, hupd]

/-- An `http`-scheme document identifier: no local file path. -/
def c10uriHttp : Url :=
  { scheme := "http", path := { abs := true, comps := ["x"] } }

/-- A `file`-scheme identifier naming the filesystem root: no parent. -/
def c10uriRoot : Url :=
  { scheme := "file", path := { abs := true, comps := [] } }

/-- Witness for C10: an `http`-scheme identifier (no file path) and a root
`file` identifier (no parent) both panic on open and on change. -/
theorem c10_nonfile_uri_witness :
    (handleMessage c5fs [] (.didOpen (some ⟨c10uriHttp, "include:"⟩)) =
        .panicked ∧
      handleMessage c5fs [] (.didChange (some ⟨c10uriHttp, ["include:"]⟩)) =
        .panicked) ∧
    (handleMessage c5fs [] (.didOpen (some ⟨c10uriRoot, "include:"⟩)) =
        .panicked ∧
      handleMessage c5fs [] (.didChange (some ⟨c10uriRoot, ["include:"]⟩)) =
        .panicked) :=
  ⟨c10_nonfile_uri c5fs [] c10uriHttp "include:" [] (by decide),
    c10_nonfile_uri c5fs [] c10uriRoot "include:" [] (by decide)⟩

/-- Claim C6 (amended): malformed document-open and document-change
notifications, unknown notifications and requests, and stray responses are
silently ignored and the dispatch loop continues with subsequent messages;
but a definition request whose parameters fail to deserialise panics
(`panic!` on the extraction error), which also stops the loop — it is not
silently ignored. -/
theorem c6_malformed_messages (fs : FS) (files : Index) (id : Nat) (s : String)
    (rest : List InMsg) :
    handleMessage fs files (.didOpen none) = .ok files [] ∧
    handleMessage fs files (.didChange none) = .ok files [] ∧
    handleMessage fs files (.otherNotification s) = .ok files [] ∧
    handleMessage fs files (.otherRequest s) = .ok files [] ∧
    handleMessage fs files .response = .ok files [] ∧
    runLoop fs files (.didOpen none :: rest) = runLoop fs files rest ∧
    runLoop fs files (.didChange none :: rest) = runLoop fs files rest ∧
    handleMessage fs files (.defRequest id none) = .panicked ∧
    runLoop fs files (.defRequest id none :: rest) = .panicked [] := by
  have hcont : ∀ m : InMsg, handleMessage fs files m = .ok files [] →
      runLoop fs files (m :: rest) = runLoop fs files rest := by
    intro m hm
    rw [runLoop]
    simp only [hm]
    cases hr : runLoop fs files rest with
    | finished f2 o2 => simp
    | panicked o2 => simp
    | fatal o2 => simp
  exact ⟨rfl, rfl, rfl, rfl, rfl, hcont _ rfl, hcont _ rfl, rfl, rfl⟩

/-- Counterexample to claim C6 as stated: a definition request whose
parameters fail to deserialise is not silently ignored — the handler
panics. -/
theorem c6_counterexample : ¬ specC6Statement := by
  intro h
  exact absurd (h c5fs [] 0) (by decide)

/-- Claim C1 (amended): with the document and line resolved to a candidate
path, (i) if neither the candidate nor the stem-named sibling directory
exists, no response is sent (silent drop); (ii) once a target is chosen
(candidate preferred, directory candidate as fallback), the target is
canonicalised first — if the canonical path is a directory, `init.grlx` is
appended afterwards, without re-canonicalising — and exactly one navigation
response is sent pointing at that final path at line 0, column 0; (iii) if
canonicalisation of the chosen target fails, no response is sent and the
request fails. -/
theorem c1_definition_resolution (fs : FS) (files : Index) (id n ch : Nat)
    (uri : Url) (m : Mapping) (p : FsPath) (st : String) (par : FsPath)
    (hidx : lookupIdx files uri = some m)
    (hline : lookupLine m n = some p)
    (hstem : p.fileStem = some st)
    (hpar : p.parent = some par) :
    (fs.pathExists p = false → fs.pathExists (par.join st) = false →
      handleMessage fs files (.defRequest id (some ⟨uri, n, ch⟩)) =
        .ok files []) ∧
    (∀ c : FsPath,
      fs.canonicalize (if fs.pathExists p then p else par.join st) = .ok c →
      (fs.pathExists p = true ∨ fs.pathExists (par.join st) = true) →
      (if fs.isDir c then c.join "init.grlx" else c).abs = true →
      handleMessage fs files (.defRequest id (some ⟨uri, n, ch⟩)) =
        .ok files [.response id
          { scheme := "file",
            path := if fs.isDir c then c.join "init.grlx" else c } 0 0 0 0]) ∧
    ((fs.pathExists p = true ∨ fs.pathExists (par.join st) = true) →
      fs.canonicalize (if fs.pathExists p then p else par.join st) =
        .error () →
      handleMessage fs files (.defRequest id (some ⟨uri, n, ch⟩)) = .fatal) := by
  refine ⟨?_, ?_, ?_⟩
  · intro h1 h2
    simp [handleMessage, hidx, hline, hstem, hpar, h1, h2]
  · intro c hc hchosen habs
    by_cases hex : fs.pathExists p
    · rw [if_pos hex] at hc
      simp [handleMessage, hidx, hline, hstem, hpar, hex, hc, habs]
    · rw [if_neg hex] at hc
      rcases hchosen with h | h
      · exact absurd h hex
      · simp [handleMessage, hidx, hline, hstem, hpar, hex, h, hc, habs]
  · intro hchosen hcanon
    by_cases hex : fs.pathExists p
    · rw [if_pos hex] at hcanon
      simp [handleMessage, hidx, hline, hstem, hpar, hex, hcanon]
    · rw [if_neg hex] at hcanon
      rcases hchosen with h | h
      · exact absurd h hex
      · simp [handleMessage, hidx, hline, hstem, hpar, hex, h, hcanon]

/-- Document identifier for the C1 scenario. -/
def c1uri : Url :=
  { scheme := "file", path := { abs := true, comps := ["d", "doc.grlx"] } }

/-- The candidate path `/d/m.grlx` of the C1 scenario (it does not exist). -/
def c1path : FsPath := { abs := true, comps := ["d", "m.grlx"] }

/-- The stem-named sibling directory `/d/m` (it exists and is a directory,
already canonical). -/
def c1dir : FsPath := { abs := true, comps := ["d", "m"] }

/-- The entry file `/d/m/init.grlx` of the package directory; on this oracle
it is a symbolic link whose canonical form is `/real.grlx`. -/
def c1init : FsPath := { abs := true, comps := ["d", "m", "init.grlx"] }

/-- The canonical form of the entry file on the C1 oracle. -/
def c1real : FsPath := { abs := true, comps := ["real.grlx"] }

/-- The C1 filesystem oracle: only `/d/m` exists (a directory, canonically
itself); canonicalising `/d/m/init.grlx` resolves the link to `/real.grlx`;
everything else fails to canonicalise. -/
def c1fs : FS :=
  { pathExists := fun q => decide (q = c1dir)
    isDir := fun q => decide (q = c1dir)
    canonicalize := fun q =>
      if q = c1dir then Except.ok c1dir
      else if q = c1init then Except.ok c1real
      else Except.error () }

/-- Witness for the amended C1: on the C1 oracle the directory fallback is
taken, the directory target is canonicalised, and the response points at the
un-canonicalised `…/init.grlx` appended afterwards. -/
theorem c1_definition_resolution_witness :
    handleMessage c1fs [(c1uri, [(5, c1path)])]
        (.defRequest 1 (some ⟨c1uri, 5, 0⟩)) =
      .ok [(c1uri, [(5, c1path)])]
        [.response 1
          { scheme := "file",
            path := if c1fs.isDir c1dir then c1dir.join "init.grlx" else c1dir }
          0 0 0 0] :=
  (c1_definition_resolution c1fs [(c1uri, [(5, c1path)])] 1 5 0 c1uri
      [(5, c1path)] c1path "m" { abs := true, comps := ["d"] }
      (by decide) (by decide) (by decide) (by decide)).2.1 c1dir
    (by rfl) (Or.inr (by decide)) (by decide)

/-- Counterexample to claim C1 as stated: the claim appends `init.grlx`
first and canonicalises the final target, so on the C1 oracle it predicts a
response at the resolved link target `/real.grlx`; the code canonicalises the
directory first and sends the response at `/d/m/init.grlx`. -/
theorem c1_counterexample : ¬ specC1Statement := by
  intro h
  obtain ⟨c, hc, hmsg⟩ := h c1fs [(c1uri, [(5, c1path)])] 1 ⟨c1uri, 5, 0⟩
    [(5, c1path)] c1path "m" { abs := true, comps := ["d"] }
    (by decide) (by decide) (by decide) (by decide) (by decide) (by decide)
  have h3 : Except.ok (ε := Unit) c = Except.ok c1real := by
    rw [← hc]
    rfl
  rw [Except.ok.inj h3] at hmsg
  exact absurd hmsg (by decide)
